import Mathlib

/-!
Verification of the field-line-following grid-interpolation engine of the
Fusion-Plasma-Synthetic-Diagnostics-Platform repository
(src/src/python3/sdp/plasma/xgc/loader.py).

The numeric type of the Python code (IEEE doubles) is embedded as an
arbitrary linear ordered field `K`; the main theorems hold for every such
field, in particular for the real numbers, and concrete witnesses are
evaluated over the rationals.  External library calls (the triangulated-mesh
interpolants of matplotlib/scipy, `np.sqrt`) are modelled as function
parameters; a masked / out-of-hull / non-finite interpolation result is
modelled as `Option.none`.
-/

namespace XGCLoader

variable {K : Type} [LinearOrderedField K]

/-- Embedding of numpy `searchsorted(a, v, side = 'right')` for a sorted
array `a`: the insertion index, which equals the number of entries `≤ v`. -/
def searchsortedRight (a : List K) (v : K) : ℕ :=
  (a.filter (fun x => x ≤ v)).length

/-- The sorted array `phi_planes = np.arange(n_plane) * dPHI` with
`dPHI = 2π / n_plane` (loader.py lines 23-24); `twoPi` stands for the
constant `2 * np.pi`. -/
def phiPlanes (twoPi : K) (P : ℕ) : List K :=
  (List.range P).map (fun (k : ℕ) => (k : K) * (twoPi / P))

/-- The angular position `phi_planes[k]` of stored plane `k`. -/
def planeAngle (twoPi : K) (P : ℕ) (k : ℕ) : K :=
  (k : K) * (twoPi / P)

/-- Embedding of `get_interp_planes` (loader.py lines 20-34), per query
point.  For the co-current field direction, `nextplane` is the right
searchsorted index, `prevplane = nextplane - 1`, and afterwards entries of
`nextplane` equal to `n_plane` are wrapped to `0`; the counter-current
branch is symmetric (the wrap is applied to `prevplane`, and `nextplane`
is computed from the pre-wrap value). -/
def get_interp_planes (twoPi : K) (P : ℕ) (coDir : Bool) (phi : K) : ℕ × ℕ :=
  if coDir then
    let next0 := searchsortedRight (phiPlanes twoPi P) phi
    (next0 - 1, if next0 = P then 0 else next0)
  else
    let prev0 := searchsortedRight (phiPlanes twoPi P) phi
    (if prev0 = P then 0 else prev0, prev0 - 1)

lemma searchsortedRight_phiPlanes (twoPi : K) (P : ℕ) (phi : K) :
    searchsortedRight (phiPlanes twoPi P) phi
      = (List.range P).countP (fun (k : ℕ) => decide ((k : K) * (twoPi / P) ≤ phi)) := by
  rw [searchsortedRight, ← List.countP_eq_length_filter, phiPlanes, List.countP_map]
  rfl

lemma searchsortedRight_le (twoPi : K) (P : ℕ) (phi : K) :
    searchsortedRight (phiPlanes twoPi P) phi ≤ P := by
  rw [searchsortedRight_phiPlanes]
  calc (List.range P).countP _ ≤ (List.range P).length := List.countP_le_length _
  _ = P := List.length_range P

lemma searchsortedRight_pos (twoPi : K) (P : ℕ) (hP : 0 < P) (phi : K)
    (hphi : 0 ≤ phi) :
    0 < searchsortedRight (phiPlanes twoPi P) phi := by
  rw [searchsortedRight_phiPlanes, List.countP_pos_iff]
  refine ⟨0, List.mem_range.mpr hP, ?_⟩
  simpa using hphi

lemma searchsortedRight_eq_P (twoPi : K) (P : ℕ) (hP : 0 < P)
    (h2pi : 0 < twoPi) (phi : K)
    (hlo : planeAngle twoPi P (P - 1) ≤ phi) :
    searchsortedRight (phiPlanes twoPi P) phi = P := by
  rw [searchsortedRight_phiPlanes]
  have hall : ∀ k ∈ List.range P, (decide ((k : K) * (twoPi / P) ≤ phi)) = true := by
    intro k hk
    rw [List.mem_range] at hk
    have hkle : (k : K) ≤ ((P - 1 : ℕ) : K) := by
      exact_mod_cast Nat.le_sub_one_of_lt hk
    have hc : (0 : K) ≤ twoPi / P := by
      apply le_of_lt
      apply div_pos h2pi
      exact_mod_cast hP
    have := mul_le_mul_of_nonneg_right hkle hc
    simp only [decide_eq_true_eq]
    exact le_trans this hlo
  rw [List.countP_eq_length.mpr hall, List.length_range]

/-- C3: for every toroidal angle `phi ∈ [0, twoPi)` the previous- and
next-plane indices returned by `get_interp_planes` are both in `0..P-1`;
in the last sector `[twoPi*(P-1)/P, twoPi)` the co-current direction
returns `(P-1, 0)` and the counter-current direction returns `(0, P-1)`
(wraparound, never `(P-1, P-1)` or an out-of-range index). -/
theorem get_interp_planes_range_and_wraparound
    (twoPi : K) (P : ℕ) (coDir : Bool) (phi : K)
    (h2pi : 0 < twoPi) (hP : 0 < P) (hphi0 : 0 ≤ phi) (hphi1 : phi < twoPi) :
    ((get_interp_planes twoPi P coDir phi).1 < P ∧
      (get_interp_planes twoPi P coDir phi).2 < P) ∧
    (planeAngle twoPi P (P - 1) ≤ phi →
      get_interp_planes twoPi P coDir phi
        = if coDir then (P - 1, 0) else (0, P - 1)) := by
  have hle := searchsortedRight_le twoPi P phi
  have hpos := searchsortedRight_pos twoPi P hP phi hphi0
  constructor
  · cases coDir with
    | false =>
      simp only [get_interp_planes, Bool.false_eq_true, if_false]
      constructor
      · by_cases h : searchsortedRight (phiPlanes twoPi P) phi = P
        · simpa [h] using hP
        · simp only [h, if_false]
          omega
      · omega
    | true =>
      simp only [get_interp_planes, if_true]
      constructor
      · omega
      · by_cases h : searchsortedRight (phiPlanes twoPi P) phi = P
        · simpa [h] using hP
        · simp only [h, if_false]
          omega
  · intro hlo
    have hfull := searchsortedRight_eq_P twoPi P hP h2pi phi hlo
    cases coDir with
    | false => simp [get_interp_planes, hfull]
    | true => simp [get_interp_planes, hfull]

/-! ## Field-line tracer (find_interp_positions_v2_upgrade, loader.py 37-182) -/

/-- Cleaning of a non-finite (masked, out-of-hull) interpolated field value:
`BRtemp[~np.isfinite(BRtemp)] = 0` (loader.py lines 105-106, 148-149). -/
def substNonFinite (v : Option K) : K := v.getD 0

/-- Division `x / b` by an interpolated field value `b`: a masked
out-of-hull divisor behaves as an infinity (the source flags outside
points with np.inf, loader.py comment line 239), and a finite numerator
divided by an infinity gives 0. -/
def pyDiv (x : K) (b : Option K) : K :=
  match b with
  | none => 0
  | some v => x / v

/-- Modelled from the spec: `runge_kutta_explicit(2)` (imported by
loader.py line 7 from sdp.math.rungekutta, a repository module not present
under src/) returns the coefficient arrays `(a, b, c, Nstage)` of an
explicit 2-stage Runge-Kutta scheme (spec 4.3: an explicit Runge-Kutta
scheme of order at least 2; the reference design uses a 2-stage method).
The tableau entries are kept abstract: `a10` is the single
strictly-lower-triangular entry of `a` and `b0`, `b1` are the weights `b`;
the nodes `c` are not used by the tracing loop. -/
structure RKTab (K : Type) where
  a10 : K
  b0 : K
  b1 : K

/-- One Runge-Kutta stage evaluation of the tracing loop (loader.py lines
98-111): the field interpolants are evaluated at the stage position
(Ztemp, Rtemp), non-finite values of BR and BZ are replaced by zero, and
the stage derivatives
K0 = Rtemp * BR / BPhi, K1 = Rtemp * BZ / BPhi,
K2 = sqrt(1 + (BR/BPhi)^2 + (BZ/BPhi)^2) * Rtemp are formed. -/
def stageEval (sqrtFn : K → K) (BR BZ BPhi : K → K → Option K)
    (Ztemp Rtemp : K) : K × K × K :=
  let bphi := BPhi Ztemp Rtemp
  let br := substNonFinite (BR Ztemp Rtemp)
  let bz := substNonFinite (BZ Ztemp Rtemp)
  (pyDiv (Rtemp * br) bphi, pyDiv (Rtemp * bz) bphi,
    sqrtFn (1 + pyDiv br bphi ^ 2 + pyDiv bz bphi ^ 2) * Rtemp)

/-- The per-iteration toroidal step (loader.py lines 92-93): the full
remaining angle, clipped to `sign * dphi` when its magnitude exceeds
`dphi`. -/
def stepSize (sign dphi phiR : K) : K :=
  if dphi < |phiR| then sign * dphi else phiR

/-- Per-point state of one tracing direction: current major radius `R`,
vertical position `Z`, accumulated arc length `s`, and the remaining
toroidal angle `phiR` still to be covered (phiFWD or phiBWD). -/
structure TraceState (K : Type) where
  R : K
  Z : K
  s : K
  phiR : K

/-- One iteration of the tracing while-loop for a single query point
(loader.py lines 90-128): take the clipped step, subtract it from the
remaining angle, evaluate the two Runge-Kutta stages (stage 0 at the
current position, stage 1 advanced by step * a10 * K(stage 0)), and apply
the increments dR = step*(b0*K00 + b1*K10), dZ = step*(b0*K01 + b1*K11),
ds = |step|*(b0*K02 + b1*K12). -/
def traceStep (sqrtFn : K → K) (tab : RKTab K) (BR BZ BPhi : K → K → Option K)
    (sign dphi : K) (st : TraceState K) : TraceState K :=
  let step := stepSize sign dphi st.phiR
  let s0 := stageEval sqrtFn BR BZ BPhi st.Z st.R
  let s1 := stageEval sqrtFn BR BZ BPhi (st.Z + step * (tab.a10 * s0.2.1))
      (st.R + step * (tab.a10 * s0.1))
  ⟨st.R + step * (tab.b0 * s0.1 + tab.b1 * s1.1),
    st.Z + step * (tab.b0 * s0.2.1 + tab.b1 * s1.2.1),
    st.s + |step| * (tab.b0 * s0.2.2 + tab.b1 * s1.2.2),
    st.phiR - step⟩

/-- The tracing while-loop per query point (loader.py lines 90-128 forward,
133-171 backward): the body runs once unconditionally (the mask `ind` is
initialized to all-true), then repeats while the remaining angle of the
point is nonzero.  The source loop needs at most `Nstep` iterations since
the initial remaining angle is at most one inter-plane gap `Nstep * dphi`;
the fuel argument bounds the remaining iterations. -/
def traceLoop (sqrtFn : K → K) (tab : RKTab K) (BR BZ BPhi : K → K → Option K)
    (sign dphi : K) : ℕ → TraceState K → TraceState K
  | 0, st => st
  | fuel + 1, st =>
      let st1 := traceStep sqrtFn tab BR BZ BPhi sign dphi st
      if st1.phiR = 0 then st1
      else traceLoop sqrtFn tab BR BZ BPhi sign dphi fuel st1

/-- The signed toroidal distance to the next plane (loader.py lines 66-75):
for the co-current direction a next plane of index 0 sits at angle twoPi
rather than 0. -/
def phiFWDOf (twoPi : K) (P : ℕ) (coDir : Bool) (phiwant : K) : K :=
  let planes := get_interp_planes twoPi P coDir phiwant
  if coDir then
    (if planes.2 = 0 then twoPi - phiwant else planeAngle twoPi P planes.2 - phiwant)
  else planeAngle twoPi P planes.2 - phiwant

/-- The signed toroidal distance to the previous plane (loader.py lines
66-75): for the counter-current direction a previous plane of index 0 sits
at angle twoPi rather than 0. -/
def phiBWDOf (twoPi : K) (P : ℕ) (coDir : Bool) (phiwant : K) : K :=
  let planes := get_interp_planes twoPi P coDir phiwant
  if coDir then planeAngle twoPi P planes.1 - phiwant
  else (if planes.1 = 0 then twoPi - phiwant else planeAngle twoPi P planes.1 - phiwant)

/-- The forward trace of one query point: sign +1 for the co-current
direction, -1 otherwise (loader.py lines 69-75), step size
dphi = (twoPi/P)/Nstep (lines 60-61), starting from (Rwant, Zwant) with
zero arc length (lines 77-82). -/
def traceFWD (sqrtFn : K → K) (tab : RKTab K) (BR BZ BPhi : K → K → Option K)
    (twoPi : K) (P Nstep : ℕ) (coDir : Bool) (Rwant Zwant phiwant : K) :
    TraceState K :=
  traceLoop sqrtFn tab BR BZ BPhi (if coDir then 1 else -1) (twoPi / P / Nstep)
    (Nstep + 1) ⟨Rwant, Zwant, 0, phiFWDOf twoPi P coDir phiwant⟩

/-- The backward trace of one query point: sign -1 for the co-current
direction, +1 otherwise. -/
def traceBWD (sqrtFn : K → K) (tab : RKTab K) (BR BZ BPhi : K → K → Option K)
    (twoPi : K) (P Nstep : ℕ) (coDir : Bool) (Rwant Zwant phiwant : K) :
    TraceState K :=
  traceLoop sqrtFn tab BR BZ BPhi (if coDir then -1 else 1) (twoPi / P / Nstep)
    (Nstep + 1) ⟨Rwant, Zwant, 0, phiBWDOf twoPi P coDir phiwant⟩

/-- One (Z, R, fraction) landing triple, as stored in
`interp_positions[i, 0..2, ...]`. -/
structure InterpPos (K : Type) where
  Z : K
  R : K
  frac : K

/-- The pair of landing triples of a query point: index 0 of the source
array is the previous plane, index 1 the next plane. -/
structure InterpPositions (K : Type) where
  prev : InterpPos K
  next : InterpPos K

/-- Embedding of `find_interp_positions_v2_upgrade` (loader.py lines
37-182) for one query point: trace forward and backward and assemble the
two (Z, R, fraction) triples, the previous-plane fraction being
s_BWD / (s_BWD + s_FWD) and the next-plane fraction its complement
(lines 173-181). -/
def find_interp_positions_v2_upgrade (sqrtFn : K → K) (tab : RKTab K)
    (BR BZ BPhi : K → K → Option K) (twoPi : K) (P Nstep : ℕ) (coDir : Bool)
    (Rwant Zwant phiwant : K) : InterpPositions K :=
  let stF := traceFWD sqrtFn tab BR BZ BPhi twoPi P Nstep coDir Rwant Zwant phiwant
  let stB := traceBWD sqrtFn tab BR BZ BPhi twoPi P Nstep coDir Rwant Zwant phiwant
  { prev := ⟨stB.Z, stB.R, stB.s / (stB.s + stF.s)⟩,
    next := ⟨stF.Z, stF.R, 1 - stB.s / (stB.s + stF.s)⟩ }

/-- The per-point blend of the previous- and next-plane interpolated
values (loader.py line 1253): on-grid value =
prev * fraction_next + next * fraction_prev, each plane being weighted by
the fraction stored with the opposite plane. -/
def blendOnGrid (prevVal nextVal fracPrev fracNext : K) : K :=
  prevVal * fracNext + nextVal * fracPrev

lemma countP_range_le_eq (P k : ℕ) (hk : k < P) :
    (List.range P).countP (fun j => decide (j ≤ k)) = k + 1 := by
  induction P with
  | zero => omega
  | succ n ih =>
    rw [List.range_succ, List.countP_append]
    by_cases h : k < n
    · have hnk : ¬ (n ≤ k) := by omega
      rw [ih h]
      simp [List.countP_cons, hnk]
    · have hkn : k = n := by omega
      subst hkn
      have hall : ∀ j ∈ List.range k, (fun j => decide (j ≤ k)) j = true := by
        intro j hj
        rw [List.mem_range] at hj
        simp
        omega
      rw [List.countP_eq_length.mpr hall, List.length_range]
      simp [List.countP_cons]

lemma searchsortedRight_at_planeAngle (twoPi : K) (P k : ℕ)
    (h2pi : 0 < twoPi) (hP : 0 < P) (hk : k < P) :
    searchsortedRight (phiPlanes twoPi P) (planeAngle twoPi P k) = k + 1 := by
  rw [searchsortedRight_phiPlanes]
  have hc : (0 : K) < twoPi / P := div_pos h2pi (by exact_mod_cast hP)
  have hcongr : ∀ j ∈ List.range P,
      (decide ((j : K) * (twoPi / P) ≤ planeAngle twoPi P k) = true
        ↔ decide (j ≤ k) = true) := by
    intro j hj
    simp only [decide_eq_true_eq, planeAngle]
    rw [mul_le_mul_right hc]
    exact_mod_cast Iff.rfl
  rw [List.countP_congr hcongr, countP_range_le_eq P k hk]

lemma get_interp_planes_at_planeAngle (twoPi : K) (P k : ℕ)
    (h2pi : 0 < twoPi) (hP : 0 < P) (hk : k < P) :
    get_interp_planes twoPi P true (planeAngle twoPi P k)
      = (k, if k + 1 = P then 0 else k + 1) := by
  simp [get_interp_planes, searchsortedRight_at_planeAngle twoPi P k h2pi hP hk]

lemma traceStep_phiR_zero (sqrtFn : K → K) (tab : RKTab K)
    (BR BZ BPhi : K → K → Option K) (sign dphi : K) (st : TraceState K)
    (hd : 0 ≤ dphi) (hst : st.phiR = 0) :
    traceStep sqrtFn tab BR BZ BPhi sign dphi st = ⟨st.R, st.Z, st.s, 0⟩ := by
  have hstep : stepSize sign dphi (0 : K) = 0 := by
    rw [stepSize]
    simp [not_lt.mpr hd]
  simp [traceStep, hst, hstep]

lemma traceLoop_phiR_zero (sqrtFn : K → K) (tab : RKTab K)
    (BR BZ BPhi : K → K → Option K) (sign dphi : K) (st : TraceState K)
    (fuel : ℕ) (hd : 0 ≤ dphi) (hst : st.phiR = 0) :
    traceLoop sqrtFn tab BR BZ BPhi sign dphi (fuel + 1) st
      = ⟨st.R, st.Z, st.s, 0⟩ := by
  rw [traceLoop]
  simp only [traceStep_phiR_zero sqrtFn tab BR BZ BPhi sign dphi st hd hst]
  simp

/-- C1: for every query point the tracer's previous-plane triple carries
blend fraction s_BWD / (s_BWD + s_FWD), where s_BWD and s_FWD are the arc
lengths accumulated by the backward and forward traces of that point, the
next-plane triple carries exactly 1 minus that fraction, and when the
denominator is nonzero (the point of the claim's positive-major-radius
precondition) the next-plane fraction equals s_FWD / (s_BWD + s_FWD). -/
theorem find_interp_positions_fraction (sqrtFn : K → K) (tab : RKTab K)
    (BR BZ BPhi : K → K → Option K) (twoPi : K) (P Nstep : ℕ) (coDir : Bool)
    (Rwant Zwant phiwant : K)
    (hden : (traceBWD sqrtFn tab BR BZ BPhi twoPi P Nstep coDir Rwant Zwant phiwant).s
      + (traceFWD sqrtFn tab BR BZ BPhi twoPi P Nstep coDir Rwant Zwant phiwant).s ≠ 0) :
    (find_interp_positions_v2_upgrade sqrtFn tab BR BZ BPhi twoPi P Nstep coDir
        Rwant Zwant phiwant).prev.frac
      = (traceBWD sqrtFn tab BR BZ BPhi twoPi P Nstep coDir Rwant Zwant phiwant).s
        / ((traceBWD sqrtFn tab BR BZ BPhi twoPi P Nstep coDir Rwant Zwant phiwant).s
          + (traceFWD sqrtFn tab BR BZ BPhi twoPi P Nstep coDir Rwant Zwant phiwant).s) ∧
    (find_interp_positions_v2_upgrade sqrtFn tab BR BZ BPhi twoPi P Nstep coDir
        Rwant Zwant phiwant).next.frac
      = 1 - (traceBWD sqrtFn tab BR BZ BPhi twoPi P Nstep coDir Rwant Zwant phiwant).s
        / ((traceBWD sqrtFn tab BR BZ BPhi twoPi P Nstep coDir Rwant Zwant phiwant).s
          + (traceFWD sqrtFn tab BR BZ BPhi twoPi P Nstep coDir Rwant Zwant phiwant).s) ∧
    (find_interp_positions_v2_upgrade sqrtFn tab BR BZ BPhi twoPi P Nstep coDir
        Rwant Zwant phiwant).next.frac
      = (traceFWD sqrtFn tab BR BZ BPhi twoPi P Nstep coDir Rwant Zwant phiwant).s
        / ((traceBWD sqrtFn tab BR BZ BPhi twoPi P Nstep coDir Rwant Zwant phiwant).s
          + (traceFWD sqrtFn tab BR BZ BPhi twoPi P Nstep coDir Rwant Zwant phiwant).s) := by
  refine ⟨rfl, rfl, ?_⟩
  show 1 - _ / _ = _ / _
  rw [eq_div_iff hden, sub_mul, one_mul, div_mul_cancel₀ _ hden]
  ring

/-- Witness for C1: a concrete rational query point with a purely toroidal
unit field; both traces accumulate arc length 5, the denominator is 10,
and the stored previous-plane fraction evaluates to 1/2. -/
theorem find_interp_positions_fraction_witness :
    (find_interp_positions_v2_upgrade (K := ℚ) id ⟨1/2, 0, 1⟩
      (fun _ _ => some 0) (fun _ _ => some 0) (fun _ _ => some 1)
      6 3 1 true 5 7 1).prev.frac = 1 / 2 := by
  have hgp : get_interp_planes (6 : ℚ) 3 true 1 = (0, 1) := by
    norm_num [get_interp_planes, searchsortedRight, phiPlanes,
      show List.range 3 = [0, 1, 2] from rfl]
  have hF : traceFWD (K := ℚ) id ⟨1/2, 0, 1⟩ (fun _ _ => some 0)
      (fun _ _ => some 0) (fun _ _ => some 1) 6 3 1 true 5 7 1 = ⟨5, 7, 5, 0⟩ := by
    rw [traceFWD, traceLoop]
    norm_num [phiFWDOf, hgp, planeAngle, traceStep, stageEval, stepSize,
      substNonFinite, pyDiv]
  have hB : traceBWD (K := ℚ) id ⟨1/2, 0, 1⟩ (fun _ _ => some 0)
      (fun _ _ => some 0) (fun _ _ => some 1) 6 3 1 true 5 7 1 = ⟨5, 7, 5, 0⟩ := by
    rw [traceBWD, traceLoop]
    norm_num [phiBWDOf, hgp, planeAngle, traceStep, stageEval, stepSize,
      substNonFinite, pyDiv]
  have h := find_interp_positions_fraction (K := ℚ) id ⟨1/2, 0, 1⟩
      (fun _ _ => some 0) (fun _ _ => some 0) (fun _ _ => some 1)
      6 3 1 true 5 7 1 (by rw [hF, hB]; norm_num)
  rw [h.1, hF, hB]
  norm_num

/-- Witness for C3: with 16 planes, the positive stand-in 6 for the
angular period, and a query angle 47/8 in the last sector, the co-current
direction brackets planes (15, 0) and the counter-current direction
(0, 15). -/
theorem get_interp_planes_wraparound_witness :
    get_interp_planes (6 : ℚ) 16 true (47/8) = (15, 0) ∧
    get_interp_planes (6 : ℚ) 16 false (47/8) = (0, 15) := by
  have h1 := get_interp_planes_range_and_wraparound (K := ℚ) 6 16 true (47/8)
    (by norm_num) (by norm_num) (by norm_num) (by norm_num)
  have h2 := get_interp_planes_range_and_wraparound (K := ℚ) 6 16 false (47/8)
    (by norm_num) (by norm_num) (by norm_num) (by norm_num)
  refine ⟨?_, ?_⟩
  · have := h1.2 (by norm_num [planeAngle])
    simpa using this
  · have := h2.2 (by norm_num [planeAngle])
    simpa using this

lemma phiBWDOf_at_planeAngle (twoPi : K) (P k : ℕ)
    (h2pi : 0 < twoPi) (hP : 0 < P) (hk : k < P) :
    phiBWDOf twoPi P true (planeAngle twoPi P k) = 0 := by
  rw [phiBWDOf]
  simp [get_interp_planes_at_planeAngle twoPi P k h2pi hP hk]

lemma get_interp_planes_at_planeAngle_cc (twoPi : K) (P k : ℕ)
    (h2pi : 0 < twoPi) (hP : 0 < P) (hk : k < P) :
    get_interp_planes twoPi P false (planeAngle twoPi P k)
      = (if k + 1 = P then 0 else k + 1, k) := by
  simp [get_interp_planes, searchsortedRight_at_planeAngle twoPi P k h2pi hP hk]

lemma phiFWDOf_at_planeAngle_cc (twoPi : K) (P k : ℕ)
    (h2pi : 0 < twoPi) (hP : 0 < P) (hk : k < P) :
    phiFWDOf twoPi P false (planeAngle twoPi P k) = 0 := by
  rw [phiFWDOf]
  simp [get_interp_planes_at_planeAngle_cc twoPi P k h2pi hP hk]

/-- C2: for a query point whose toroidal angle equals the angular position
of stored plane k, the trace toward that plane accumulates zero arc
length and does not move the point, the stored fractions degenerate so
that the weight multiplying the coincident plane's value in the blend
prev*frac_next + next*frac_prev is 1 and the other weight is 0, and the
blended value equals the coincident plane's own interpolated value at the
query (R, Z).  With the co-current field direction the coincident plane
is the previous plane (fractions (0, 1)); with the counter-current
direction it is the next plane (fractions (1, 0)).  The nonzero-arc-length
hypotheses on the opposite trace reflect the claim's nonzero-denominator
precondition. -/
theorem blend_on_plane_degenerate (sqrtFn : K → K) (tab : RKTab K)
    (BR BZ BPhi : K → K → Option K) (twoPi : K) (P Nstep k : ℕ)
    (Rwant Zwant : K) (fprev fnext : K → K → K) (prevVal nextVal : K)
    (h2pi : 0 < twoPi) (hP : 0 < P) (hN : 0 < Nstep) (hk : k < P)
    (hsF : (traceFWD sqrtFn tab BR BZ BPhi twoPi P Nstep true Rwant Zwant
      (planeAngle twoPi P k)).s ≠ 0)
    (hsB : (traceBWD sqrtFn tab BR BZ BPhi twoPi P Nstep false Rwant Zwant
      (planeAngle twoPi P k)).s ≠ 0) :
    ((traceBWD sqrtFn tab BR BZ BPhi twoPi P Nstep true Rwant Zwant
        (planeAngle twoPi P k)).s = 0 ∧
    (traceBWD sqrtFn tab BR BZ BPhi twoPi P Nstep true Rwant Zwant
        (planeAngle twoPi P k)).R = Rwant ∧
    (traceBWD sqrtFn tab BR BZ BPhi twoPi P Nstep true Rwant Zwant
        (planeAngle twoPi P k)).Z = Zwant ∧
    (find_interp_positions_v2_upgrade sqrtFn tab BR BZ BPhi twoPi P Nstep true
        Rwant Zwant (planeAngle twoPi P k)).prev.frac = 0 ∧
    (find_interp_positions_v2_upgrade sqrtFn tab BR BZ BPhi twoPi P Nstep true
        Rwant Zwant (planeAngle twoPi P k)).next.frac = 1 ∧
    blendOnGrid
        (fprev
          (find_interp_positions_v2_upgrade sqrtFn tab BR BZ BPhi twoPi P Nstep
            true Rwant Zwant (planeAngle twoPi P k)).prev.Z
          (find_interp_positions_v2_upgrade sqrtFn tab BR BZ BPhi twoPi P Nstep
            true Rwant Zwant (planeAngle twoPi P k)).prev.R)
        nextVal
        (find_interp_positions_v2_upgrade sqrtFn tab BR BZ BPhi twoPi P Nstep
          true Rwant Zwant (planeAngle twoPi P k)).prev.frac
        (find_interp_positions_v2_upgrade sqrtFn tab BR BZ BPhi twoPi P Nstep
          true Rwant Zwant (planeAngle twoPi P k)).next.frac
      = fprev Zwant Rwant) ∧
    ((traceFWD sqrtFn tab BR BZ BPhi twoPi P Nstep false Rwant Zwant
        (planeAngle twoPi P k)).s = 0 ∧
    (traceFWD sqrtFn tab BR BZ BPhi twoPi P Nstep false Rwant Zwant
        (planeAngle twoPi P k)).R = Rwant ∧
    (traceFWD sqrtFn tab BR BZ BPhi twoPi P Nstep false Rwant Zwant
        (planeAngle twoPi P k)).Z = Zwant ∧
    (find_interp_positions_v2_upgrade sqrtFn tab BR BZ BPhi twoPi P Nstep false
        Rwant Zwant (planeAngle twoPi P k)).prev.frac = 1 ∧
    (find_interp_positions_v2_upgrade sqrtFn tab BR BZ BPhi twoPi P Nstep false
        Rwant Zwant (planeAngle twoPi P k)).next.frac = 0 ∧
    blendOnGrid
        prevVal
        (fnext
          (find_interp_positions_v2_upgrade sqrtFn tab BR BZ BPhi twoPi P Nstep
            false Rwant Zwant (planeAngle twoPi P k)).next.Z
          (find_interp_positions_v2_upgrade sqrtFn tab BR BZ BPhi twoPi P Nstep
            false Rwant Zwant (planeAngle twoPi P k)).next.R)
        (find_interp_positions_v2_upgrade sqrtFn tab BR BZ BPhi twoPi P Nstep
          false Rwant Zwant (planeAngle twoPi P k)).prev.frac
        (find_interp_positions_v2_upgrade sqrtFn tab BR BZ BPhi twoPi P Nstep
          false Rwant Zwant (planeAngle twoPi P k)).next.frac
      = fnext Zwant Rwant) := by
  have hd : (0 : K) ≤ twoPi / P / Nstep := by positivity
  have hB : traceBWD sqrtFn tab BR BZ BPhi twoPi P Nstep true Rwant Zwant
      (planeAngle twoPi P k) = ⟨Rwant, Zwant, 0, 0⟩ := by
    rw [traceBWD]
    exact traceLoop_phiR_zero sqrtFn tab BR BZ BPhi (if true then -1 else 1)
      (twoPi / P / Nstep) ⟨Rwant, Zwant, 0, phiBWDOf twoPi P true (planeAngle twoPi P k)⟩
      Nstep hd (phiBWDOf_at_planeAngle twoPi P k h2pi hP hk)
  have hfrac : (find_interp_positions_v2_upgrade sqrtFn tab BR BZ BPhi twoPi P
      Nstep true Rwant Zwant (planeAngle twoPi P k)).prev.frac = 0 := by
    show (traceBWD sqrtFn tab BR BZ BPhi twoPi P Nstep true Rwant Zwant
        (planeAngle twoPi P k)).s
      / ((traceBWD sqrtFn tab BR BZ BPhi twoPi P Nstep true Rwant Zwant
          (planeAngle twoPi P k)).s
        + (traceFWD sqrtFn tab BR BZ BPhi twoPi P Nstep true Rwant Zwant
          (planeAngle twoPi P k)).s) = 0
    rw [hB]
    simp
  have hnfrac : (find_interp_positions_v2_upgrade sqrtFn tab BR BZ BPhi twoPi P
      Nstep true Rwant Zwant (planeAngle twoPi P k)).next.frac = 1 := by
    show 1 - (traceBWD sqrtFn tab BR BZ BPhi twoPi P Nstep true Rwant Zwant
        (planeAngle twoPi P k)).s
      / ((traceBWD sqrtFn tab BR BZ BPhi twoPi P Nstep true Rwant Zwant
          (planeAngle twoPi P k)).s
        + (traceFWD sqrtFn tab BR BZ BPhi twoPi P Nstep true Rwant Zwant
          (planeAngle twoPi P k)).s) = 1
    rw [hB]
    simp
  have hZ : (find_interp_positions_v2_upgrade sqrtFn tab BR BZ BPhi twoPi P
      Nstep true Rwant Zwant (planeAngle twoPi P k)).prev.Z = Zwant := by
    show (traceBWD sqrtFn tab BR BZ BPhi twoPi P Nstep true Rwant Zwant
      (planeAngle twoPi P k)).Z = Zwant
    rw [hB]
  have hR : (find_interp_positions_v2_upgrade sqrtFn tab BR BZ BPhi twoPi P
      Nstep true Rwant Zwant (planeAngle twoPi P k)).prev.R = Rwant := by
    show (traceBWD sqrtFn tab BR BZ BPhi twoPi P Nstep true Rwant Zwant
      (planeAngle twoPi P k)).R = Rwant
    rw [hB]
  have hF0 : traceFWD sqrtFn tab BR BZ BPhi twoPi P Nstep false Rwant Zwant
      (planeAngle twoPi P k) = ⟨Rwant, Zwant, 0, 0⟩ := by
    rw [traceFWD]
    exact traceLoop_phiR_zero sqrtFn tab BR BZ BPhi (if false then 1 else -1)
      (twoPi / P / Nstep)
      ⟨Rwant, Zwant, 0, phiFWDOf twoPi P false (planeAngle twoPi P k)⟩
      Nstep hd (phiFWDOf_at_planeAngle_cc twoPi P k h2pi hP hk)
  have hccfrac : (find_interp_positions_v2_upgrade sqrtFn tab BR BZ BPhi twoPi P
      Nstep false Rwant Zwant (planeAngle twoPi P k)).prev.frac = 1 := by
    show (traceBWD sqrtFn tab BR BZ BPhi twoPi P Nstep false Rwant Zwant
        (planeAngle twoPi P k)).s
      / ((traceBWD sqrtFn tab BR BZ BPhi twoPi P Nstep false Rwant Zwant
          (planeAngle twoPi P k)).s
        + (traceFWD sqrtFn tab BR BZ BPhi twoPi P Nstep false Rwant Zwant
          (planeAngle twoPi P k)).s) = 1
    rw [hF0]
    show (traceBWD sqrtFn tab BR BZ BPhi twoPi P Nstep false Rwant Zwant
        (planeAngle twoPi P k)).s
      / ((traceBWD sqrtFn tab BR BZ BPhi twoPi P Nstep false Rwant Zwant
          (planeAngle twoPi P k)).s + 0) = 1
    rw [add_zero]
    exact div_self hsB
  have hccnfrac : (find_interp_positions_v2_upgrade sqrtFn tab BR BZ BPhi twoPi
      P Nstep false Rwant Zwant (planeAngle twoPi P k)).next.frac = 0 := by
    show 1 - (traceBWD sqrtFn tab BR BZ BPhi twoPi P Nstep false Rwant Zwant
        (planeAngle twoPi P k)).s
      / ((traceBWD sqrtFn tab BR BZ BPhi twoPi P Nstep false Rwant Zwant
          (planeAngle twoPi P k)).s
        + (traceFWD sqrtFn tab BR BZ BPhi twoPi P Nstep false Rwant Zwant
          (planeAngle twoPi P k)).s) = 0
    rw [hF0]
    show 1 - (traceBWD sqrtFn tab BR BZ BPhi twoPi P Nstep false Rwant Zwant
        (planeAngle twoPi P k)).s
      / ((traceBWD sqrtFn tab BR BZ BPhi twoPi P Nstep false Rwant Zwant
          (planeAngle twoPi P k)).s + 0) = 0
    rw [add_zero, div_self hsB, sub_self]
  have hccZ : (find_interp_positions_v2_upgrade sqrtFn tab BR BZ BPhi twoPi P
      Nstep false Rwant Zwant (planeAngle twoPi P k)).next.Z = Zwant := by
    show (traceFWD sqrtFn tab BR BZ BPhi twoPi P Nstep false Rwant Zwant
      (planeAngle twoPi P k)).Z = Zwant
    rw [hF0]
  have hccR : (find_interp_positions_v2_upgrade sqrtFn tab BR BZ BPhi twoPi P
      Nstep false Rwant Zwant (planeAngle twoPi P k)).next.R = Rwant := by
    show (traceFWD sqrtFn tab BR BZ BPhi twoPi P Nstep false Rwant Zwant
      (planeAngle twoPi P k)).R = Rwant
    rw [hF0]
  refine ⟨⟨by rw [hB], by rw [hB], by rw [hB], hfrac, hnfrac, ?_⟩,
    by rw [hF0], by rw [hF0], by rw [hF0], hccfrac, hccnfrac, ?_⟩
  · rw [blendOnGrid, hfrac, hnfrac, hZ, hR]
    ring
  · rw [blendOnGrid, hccfrac, hccnfrac, hccZ, hccR]
    ring

/-- Witness for C2: a concrete rational query point lying exactly on plane
1 of 3; the traces toward the opposite plane accumulate arc length 10 in
either field direction (discharging the nonzero-denominator hypotheses)
and the stored fraction of the opposite plane evaluates to 1. -/
theorem blend_on_plane_degenerate_witness :
    (find_interp_positions_v2_upgrade (K := ℚ) id ⟨1/2, 0, 1⟩
      (fun _ _ => some 0) (fun _ _ => some 0) (fun _ _ => some 1)
      6 3 1 true 5 7 (planeAngle 6 3 1)).next.frac = 1 := by
  have hgp : get_interp_planes (6 : ℚ) 3 true 2 = (1, 2) := by
    norm_num [get_interp_planes, searchsortedRight, phiPlanes,
      show List.range 3 = [0, 1, 2] from rfl]
  have hgpcc : get_interp_planes (6 : ℚ) 3 false 2 = (2, 1) := by
    norm_num [get_interp_planes, searchsortedRight, phiPlanes,
      show List.range 3 = [0, 1, 2] from rfl]
  have hF : traceFWD (K := ℚ) id ⟨1/2, 0, 1⟩ (fun _ _ => some 0)
      (fun _ _ => some 0) (fun _ _ => some 1) 6 3 1 true 5 7
      (planeAngle 6 3 1) = ⟨5, 7, 10, 0⟩ := by
    rw [traceFWD, traceLoop]
    norm_num [phiFWDOf, hgp, planeAngle, traceStep, stageEval, stepSize,
      substNonFinite, pyDiv]
  have hBcc : traceBWD (K := ℚ) id ⟨1/2, 0, 1⟩ (fun _ _ => some 0)
      (fun _ _ => some 0) (fun _ _ => some 1) 6 3 1 false 5 7
      (planeAngle 6 3 1) = ⟨5, 7, 10, 0⟩ := by
    rw [traceBWD, traceLoop]
    norm_num [phiBWDOf, hgpcc, planeAngle, traceStep, stageEval, stepSize,
      substNonFinite, pyDiv]
  have h := blend_on_plane_degenerate (K := ℚ) id ⟨1/2, 0, 1⟩
    (fun _ _ => some 0) (fun _ _ => some 0) (fun _ _ => some 1)
    6 3 1 1 5 7 (fun z r => z * r) (fun z r => z + r) 3 0
    (by norm_num) (by norm_num) (by norm_num) (by norm_num)
    (by rw [hF]; norm_num) (by rw [hBcc]; norm_num)
  exact h.1.2.2.2.2.1

/-- C6: during a Runge-Kutta sub-step whose stage position lies outside
the mesh convex hull (interpolated field components masked / non-finite),
zero is substituted for B_R and B_Z before the stage derivatives are
formed, the resulting increments are well-defined field elements
dR = dZ = 0 and ds = |step| * (b0 + b1) * sqrt(1) * R, and the step
function is total: no exception propagates from the non-finite
evaluation. -/
theorem traceStep_outside_hull (sqrtFn : K → K) (tab : RKTab K)
    (BR BZ BPhi : K → K → Option K) (sign dphi : K) (st : TraceState K)
    (hBR : BR st.Z st.R = none) (hBZ : BZ st.Z st.R = none)
    (hBPhi : BPhi st.Z st.R = none) :
    traceStep sqrtFn tab BR BZ BPhi sign dphi st
      = ⟨st.R, st.Z,
          st.s + |stepSize sign dphi st.phiR|
            * ((tab.b0 + tab.b1) * (sqrtFn 1 * st.R)),
          st.phiR - stepSize sign dphi st.phiR⟩ := by
  have h0 : stageEval sqrtFn BR BZ BPhi st.Z st.R = (0, 0, sqrtFn 1 * st.R) := by
    simp [stageEval, hBR, hBZ, hBPhi, substNonFinite, pyDiv]
  simp only [traceStep, h0, mul_zero, add_zero, h0, TraceState.mk.injEq]
  refine ⟨by ring, by ring, by ring, trivial⟩

/-- Witness for C6: a concrete rational state at (R, Z) = (2, 3) with all
field interpolants masked; one step of size 1 leaves (R, Z) in place and
advances the arc length by 2. -/
theorem traceStep_outside_hull_witness :
    traceStep (K := ℚ) id ⟨1/2, 1/2, 1/2⟩ (fun _ _ => none) (fun _ _ => none)
      (fun _ _ => none) 1 1 ⟨2, 3, 0, 5⟩ = ⟨2, 3, 2, 4⟩ := by
  have h := traceStep_outside_hull (K := ℚ) id ⟨1/2, 1/2, 1/2⟩
    (fun _ _ => none) (fun _ _ => none) (fun _ _ => none) 1 1 ⟨2, 3, 0, 5⟩
    rfl rfl rfl
  rw [h]
  norm_num [stepSize, abs_of_pos]

lemma pyDiv_zero (b : Option K) : pyDiv (0 : K) b = 0 := by
  cases b <;> simp [pyDiv]

lemma traceStep_RZ_fixed (sqrtFn : K → K) (tab : RKTab K)
    (BR BZ BPhi : K → K → Option K) (sign dphi : K) (st : TraceState K)
    (hBR : ∀ z r, BR z r = some 0) (hBZ : ∀ z r, BZ z r = some 0) :
    (traceStep sqrtFn tab BR BZ BPhi sign dphi st).R = st.R ∧
    (traceStep sqrtFn tab BR BZ BPhi sign dphi st).Z = st.Z := by
  constructor <;>
    simp [traceStep, stageEval, hBR, hBZ, substNonFinite, pyDiv_zero]

lemma traceLoop_RZ_fixed (sqrtFn : K → K) (tab : RKTab K)
    (BR BZ BPhi : K → K → Option K) (sign dphi : K)
    (hBR : ∀ z r, BR z r = some 0) (hBZ : ∀ z r, BZ z r = some 0) :
    ∀ (fuel : ℕ) (st : TraceState K),
      (traceLoop sqrtFn tab BR BZ BPhi sign dphi fuel st).R = st.R ∧
      (traceLoop sqrtFn tab BR BZ BPhi sign dphi fuel st).Z = st.Z := by
  intro fuel
  induction fuel with
  | zero => exact fun st => ⟨rfl, rfl⟩
  | succ n ih =>
    intro st
    rw [traceLoop]
    have hstep := traceStep_RZ_fixed sqrtFn tab BR BZ BPhi sign dphi st hBR hBZ
    by_cases h : (traceStep sqrtFn tab BR BZ BPhi sign dphi st).phiR = 0
    · simpa [h] using hstep
    · have hrec := ih (traceStep sqrtFn tab BR BZ BPhi sign dphi st)
      simp only [h, if_false]
      exact ⟨hrec.1.trans hstep.1, hrec.2.trans hstep.2⟩

/-- C7: if the interpolated B_R and B_Z evaluate to zero at every
position, both the forward and the backward trace return landing
coordinates exactly equal to the starting (R, Z) for every query point:
the tracer acts as the identity on (R, Z).  The hypothesis on BPhi
excludes a vanishing toroidal component, for which the source's division
0/0 would produce NaN rather than the zero modelled by the embedding. -/
theorem tracer_identity_on_RZ (sqrtFn : K → K) (tab : RKTab K)
    (BR BZ BPhi : K → K → Option K) (twoPi : K) (P Nstep : ℕ) (coDir : Bool)
    (Rwant Zwant phiwant : K)
    (hBR : ∀ z r, BR z r = some 0) (hBZ : ∀ z r, BZ z r = some 0)
    (hBPhi : ∀ z r, BPhi z r ≠ some 0) :
    (find_interp_positions_v2_upgrade sqrtFn tab BR BZ BPhi twoPi P Nstep coDir
        Rwant Zwant phiwant).prev.R = Rwant ∧
    (find_interp_positions_v2_upgrade sqrtFn tab BR BZ BPhi twoPi P Nstep coDir
        Rwant Zwant phiwant).prev.Z = Zwant ∧
    (find_interp_positions_v2_upgrade sqrtFn tab BR BZ BPhi twoPi P Nstep coDir
        Rwant Zwant phiwant).next.R = Rwant ∧
    (find_interp_positions_v2_upgrade sqrtFn tab BR BZ BPhi twoPi P Nstep coDir
        Rwant Zwant phiwant).next.Z = Zwant := by
  have hB := traceLoop_RZ_fixed sqrtFn tab BR BZ BPhi (if coDir then -1 else 1)
    (twoPi / P / Nstep) hBR hBZ (Nstep + 1)
    ⟨Rwant, Zwant, 0, phiBWDOf twoPi P coDir phiwant⟩
  have hF := traceLoop_RZ_fixed sqrtFn tab BR BZ BPhi (if coDir then 1 else -1)
    (twoPi / P / Nstep) hBR hBZ (Nstep + 1)
    ⟨Rwant, Zwant, 0, phiFWDOf twoPi P coDir phiwant⟩
  exact ⟨hB.1, hB.2, hF.1, hF.2⟩

/-- Witness for C7: with B_R = B_Z = 0 and a unit toroidal field over 4
planes, the tracer returns the starting major radius 5 unchanged for a
concrete rational query point. -/
theorem tracer_identity_on_RZ_witness :
    (find_interp_positions_v2_upgrade (K := ℚ) id ⟨1/2, 0, 1⟩
      (fun _ _ => some 0) (fun _ _ => some 0) (fun _ _ => some 1)
      6 4 2 true 5 7 1).prev.R = 5 := by
  have hzero : ∀ z r : ℚ, (fun (_ _ : ℚ) => (some 0 : Option ℚ)) z r = some 0 :=
    fun _ _ => rfl
  have hone : ∀ z r : ℚ, (fun (_ _ : ℚ) => (some 1 : Option ℚ)) z r ≠ some 0 :=
    fun _ _ => by simp
  have h := tracer_identity_on_RZ (K := ℚ) id ⟨1/2, 0, 1⟩
    (fun _ _ => some 0) (fun _ _ => some 0) (fun _ _ => some 1)
    6 4 2 true 5 7 1 hzero hzero hone
  exact h.1

/-! ## Boundary extrapolation (interpolate_all_on_grid_2D, loader.py 1036-1118) -/

/-- Squared distance in the (Z, R) plane, the quantity minimized by the
nearest-boundary-vertex search `np.argmin((Z-Z_boundary)**2 +
(R-R_boundary)**2)` (loader.py line 1069). -/
def sqDist (p q : K × K) : K := (p.1 - q.1) ^ 2 + (p.2 - q.2) ^ 2

/-- The running-minimum pass underlying np.argmin over the boundary-vertex
distances: carries the best vertex so far together with its squared
distance and replaces it only on strict improvement (np.argmin keeps the
first minimizer on ties). -/
def nearestVertexFrom (p : K × K) : ((K × K) × K) → List (K × K) → (K × K) × K
  | best, [] => best
  | best, v :: vs =>
      nearestVertexFrom p (if sqDist p v < best.2 then (v, sqDist p v) else best) vs

/-- The nearest convex-hull boundary vertex of a query point (loader.py
lines 1065-1073): the argmin over the boundary-vertex list of squared
distance.  The source indexes the boundary arrays with np.argmin, which
presupposes a nonempty vertex list; the empty case returns the query
point itself as a junk value. -/
def nearestVertex (p : K × K) : List (K × K) → K × K
  | [] => p
  | v :: vs => (nearestVertexFrom p (v, sqDist p v) vs).1

lemma nearestVertexFrom_spec (p : K × K) (l : List (K × K)) :
    ∀ best : (K × K) × K, best.2 = sqDist p best.1 →
      (nearestVertexFrom p best l).2 = sqDist p (nearestVertexFrom p best l).1 ∧
      ((nearestVertexFrom p best l).1 = best.1 ∨ (nearestVertexFrom p best l).1 ∈ l) ∧
      (nearestVertexFrom p best l).2 ≤ best.2 ∧
      ∀ u ∈ l, (nearestVertexFrom p best l).2 ≤ sqDist p u := by
  induction l with
  | nil =>
    intro best hb
    simp [nearestVertexFrom, hb]
  | cons v vs ih =>
    intro best hb
    rw [nearestVertexFrom]
    by_cases h : sqDist p v < best.2
    · rw [if_pos h]
      obtain ⟨h1, h2, h3, h4⟩ := ih (v, sqDist p v) rfl
      refine ⟨h1, ?_, le_trans h3 h.le, ?_⟩
      · rcases h2 with h2 | h2
        · exact Or.inr (h2 ▸ List.mem_cons_self v vs)
        · exact Or.inr (List.mem_cons_of_mem v h2)
      · intro u hu
        rcases List.mem_cons.mp hu with hu | hu
        · exact hu ▸ h3
        · exact h4 u hu
    · rw [if_neg h]
      obtain ⟨h1, h2, h3, h4⟩ := ih best hb
      refine ⟨h1, ?_, h3, ?_⟩
      · rcases h2 with h2 | h2
        · exact Or.inl h2
        · exact Or.inr (List.mem_cons_of_mem v h2)
      · intro u hu
        rcases List.mem_cons.mp hu with hu | hu
        · exact hu ▸ le_trans h3 (not_lt.mp h)
        · exact h4 u hu

lemma nearestVertex_min (p : K × K) (l : List (K × K)) (hne : l ≠ []) :
    nearestVertex p l ∈ l ∧
    ∀ u ∈ l, sqDist p (nearestVertex p l) ≤ sqDist p u := by
  cases l with
  | nil => exact absurd rfl hne
  | cons v vs =>
    obtain ⟨h1, h2, h3, h4⟩ := nearestVertexFrom_spec p vs (v, sqDist p v) rfl
    constructor
    · rcases h2 with h2 | h2
      · rw [nearestVertex, h2]
        exact List.mem_cons_self v vs
      · exact List.mem_cons_of_mem v h2
    · intro u hu
      rcases List.mem_cons.mp hu with hu | hu
      · rw [nearestVertex, hu]
        exact le_trans (le_of_eq h1.symm) h3
      · exact le_trans (le_of_eq h1.symm) (h4 u hu)

/-- Embedding of the boundary extrapolation of interpolate_all_on_grid_2D
(loader.py lines 1064-1078): for an outside point (Zout, Rout), pick the
nearest boundary vertex (Zn, Rn), evaluate the interpolant value aV and
its gradient (gZ, gR) there, and return
a_n + (Zout - Zn) * dA/dZ + (Rout - Rn) * dA/dR.  Boundary vertices are
mesh nodes, where the interpolant and its gradient are defined, so aV,
gZ and gR are total functions. -/
def extrapValue (aV gZ gR : K → K → K) (boundary : List (K × K)) (z r : K) : K :=
  let vn := nearestVertex (z, r) boundary
  aV vn.1 vn.2 + (z - vn.1) * gZ vn.1 vn.2 + (r - vn.2) * gR vn.1 vn.2

/-- C8: for every outside grid point the extrapolated output equals
a_n + (Z_out - Z_n) * dA/dZ + (R_out - R_n) * dA/dR exactly, where
(Z_n, R_n) is a convex-hull boundary vertex minimizing the Euclidean
distance to the point, a_n the interpolant's value there and (dA/dZ,
dA/dR) its gradient there. -/
theorem extrapValue_nearest_vertex (aV gZ gR : ℝ → ℝ → ℝ)
    (boundary : List (ℝ × ℝ)) (z r : ℝ) (hne : boundary ≠ []) :
    ∃ vn ∈ boundary,
      (∀ u ∈ boundary,
        Real.sqrt ((z - vn.1) ^ 2 + (r - vn.2) ^ 2)
          ≤ Real.sqrt ((z - u.1) ^ 2 + (r - u.2) ^ 2)) ∧
      extrapValue aV gZ gR boundary z r
        = aV vn.1 vn.2 + (z - vn.1) * gZ vn.1 vn.2
          + (r - vn.2) * gR vn.1 vn.2 := by
  obtain ⟨hmem, hmin⟩ := nearestVertex_min (z, r) boundary hne
  refine ⟨nearestVertex (z, r) boundary, hmem, ?_, rfl⟩
  intro u hu
  apply Real.sqrt_le_sqrt
  simpa [sqDist] using hmin u hu

/-- Witness for C8: a concrete outside point (-1, 0) with the two boundary
vertices (0, 0) and (3, 4). -/
theorem extrapValue_nearest_vertex_witness :
    ∃ vn ∈ [((0 : ℝ), (0 : ℝ)), (3, 4)],
      (∀ u ∈ [((0 : ℝ), (0 : ℝ)), (3, 4)],
        Real.sqrt (((-1 : ℝ) - vn.1) ^ 2 + ((0 : ℝ) - vn.2) ^ 2)
          ≤ Real.sqrt (((-1 : ℝ) - u.1) ^ 2 + ((0 : ℝ) - u.2) ^ 2)) ∧
      extrapValue (fun z r => z + r) (fun _ _ => 2) (fun _ _ => 3)
          [((0 : ℝ), (0 : ℝ)), (3, 4)] (-1) 0
        = (fun (z r : ℝ) => z + r) vn.1 vn.2 + ((-1 : ℝ) - vn.1) * 2
          + ((0 : ℝ) - vn.2) * 3 := by
  have h := extrapValue_nearest_vertex (fun z r => z + r) (fun _ _ => 2)
    (fun _ _ => 3) [((0 : ℝ), (0 : ℝ)), (3, 4)] (-1) 0 (by simp)
  simpa using h

/-! ## Definedness of equilibrium outputs (C5) -/

/-- An equilibrium quantity interpolated on the grid in the 3-D
equilibrium-mesh style '3D' (loader.py lines 1131-1149): the interpolant
is evaluated directly at the grid point and no outside-hull filling is
applied, so a masked evaluation stays masked. -/
def eqOnGrid3DStyle (qI : K → K → Option K) (z r : K) : Option K := qI z r

/-- An equilibrium quantity interpolated on the grid in the 2-D path and
in the 3-D equilibrium-mesh style '2D' (loader.py lines 1052-1088 and
1157-1206): the interpolant is evaluated at the grid point and entries
masked by the out-of-hull mask are replaced by the boundary-extrapolated
value `arr[out_mask] = ..._out`. -/
def eqOnGrid2DStyle (qI : K → K → Option K) (aV gZ gR : K → K → K)
    (boundary : List (K × K)) (z r : K) : Option K :=
  match qI z r with
  | some v => some v
  | none => some (extrapValue aV gZ gR boundary z r)

/-- C5 (amended): in the 2-D interpolation path and in the 3-D
equilibrium-mesh style '2D', after the boundary-extrapolation fill every
grid entry of an equilibrium quantity is defined (no masked entries); the
1-D profile interpolants deriving temperatures and densities from psi are
built with bounds_error = False and a fill value, hence total.  The
original claim fails for the equilibrium-mesh style '3D', which applies
no fill: see the counterexample theorem.  The nonemptiness hypothesis on
the boundary-vertex list reflects np.argmin, which faults on an empty
array. -/
theorem eqOnGrid2DStyle_defined (qI : K → K → Option K) (aV gZ gR : K → K → K)
    (boundary : List (K × K)) (z r : K) (hne : boundary ≠ []) :
    (eqOnGrid2DStyle qI aV gZ gR boundary z r).isSome = true := by
  cases h : qI z r <;> simp [eqOnGrid2DStyle, h]

/-- Witness for C5 (amended): a concrete rational interpolant defined on
the unit disc, evaluated at the outside point (2, 2) with boundary vertex
list [(1, 0)]: the filled output entry is defined. -/
theorem eqOnGrid2DStyle_defined_witness :
    (eqOnGrid2DStyle (K := ℚ)
      (fun z r => if z ^ 2 + r ^ 2 ≤ 1 then some (z * r) else none)
      (fun z r => z + r) (fun _ _ => 1) (fun _ _ => 1)
      [(1, 0)] 2 2).isSome = true := by
  exact eqOnGrid2DStyle_defined
    (fun z r => if z ^ 2 + r ^ 2 ≤ 1 then some (z * r) else none)
    (fun z r => z + r) (fun _ _ => 1) (fun _ _ => 1) [(1, 0)] 2 2 (by simp)

/-- Counterexample to C5 as stated: in the 3-D equilibrium-mesh style
'3D' no boundary extrapolation is applied, and at a grid point outside
the mesh convex hull the psi output entry remains undefined (masked). -/
theorem eqOnGrid3DStyle_masked_counterexample :
    eqOnGrid3DStyle (K := ℚ)
      (fun z r => if z ^ 2 + r ^ 2 ≤ 1 then some (z * r) else none) 2 2
      = none := by
  norm_num [eqOnGrid3DStyle]

/-! ## 3-D fluctuation-only loading (load_fluctuations_3D_fluc_only,
loader.py 887-951) -/

/-- Embedding of the array `phi_all` built by
load_fluctuations_3D_fluc_only: it is allocated as zeros (loader.py line
914) and the loading loop `for i in range(1, len(self.time_steps))` (line
917) starts at time index 1, so time index 0 keeps its zero
initialization.  `raw p t n` stands for the file data
`np.swapaxes(fluc_mesh['dpot'][...][:, p], 0, 1)` of plane p at chosen
time-step index t, node n. -/
def phi_all_3D_fluc_only (nt : ℕ) (raw : ℕ → ℕ → ℕ → K) (p t n : ℕ) : K :=
  if 1 ≤ t ∧ t < nt then raw p t n else 0

/-- The toroidal average of the loaded per-plane data over all n_plane
planes, `phi_avg_tor = np.average(phi_all, axis = 0)` (loader.py line
931). -/
def phi_avg_tor (P nt : ℕ) (raw : ℕ → ℕ → ℕ → K) (t n : ℕ) : K :=
  (∑ p in Finset.range P, phi_all_3D_fluc_only nt raw p t n) / P

/-- The chosen cross-section center planes,
`center_planes = np.arange(n_cross_section) * (n_plane //
n_cross_section)` (loader.py lines 900-901, integer division). -/
def center_plane (P ncross j : ℕ) : ℕ := j * (P / ncross)

/-- The stored fluctuation of cross-section j, time index t, stored-plane
index pidx, node n (loader.py line 938): the loaded array at plane
`(center_planes[j] + planes[pidx]) % n_plane` minus the toroidal
average. -/
def storedPhi_3D_fluc_only (P nt ncross : ℕ) (planes : List ℕ)
    (raw : ℕ → ℕ → ℕ → K) (j t pidx n : ℕ) : K :=
  phi_all_3D_fluc_only nt raw
      ((center_plane P ncross j + planes.getD pidx 0) % P) t n
    - phi_avg_tor P nt raw t n

/-- The equilibrium accumulation (loader.py line 944): the time average
over the nt loaded steps of the toroidal average is added to the stored
equilibrium profile ne0. -/
def ne0_after_3D_fluc_only (P nt : ℕ) (raw : ℕ → ℕ → ℕ → K) (ne0 : ℕ → K)
    (n : ℕ) : K :=
  ne0 n + (∑ t in Finset.range nt, phi_avg_tor P nt raw t n) / nt

/-- The fluctuation the claim (and the 2-D loader, loader.py lines
782-788 and 818) prescribes: the raw per-plane data at time t minus the
toroidal average over all P planes of the raw data at t. -/
def rawCenteredFluc (P : ℕ) (raw : ℕ → ℕ → ℕ → K) (p t n : ℕ) : K :=
  raw p t n - (∑ q in Finset.range P, raw q t n) / P

/-- C4 failing behavior: with 2 planes, a single chosen time step and raw
first-step data 1 on plane 0 and 3 on plane 1, the stored fluctuation at
time index 0 evaluates to 0 (the loading loop of the 3-D fluc-only path
starts at time index 1, so the first step's data is never read), while
the claim prescribes raw minus toroidal average = -1; the equilibrium
accumulation likewise adds the average of a zero row (ne0 stays 10)
instead of the raw toroidal average 2. -/
theorem load_fluctuations_3D_fluc_only_t0_bug :
    storedPhi_3D_fluc_only (K := ℚ) 2 1 1 [0, 1]
        (fun p _ _ => if p = 0 then 1 else 3) 0 0 0 0 = 0 ∧
    rawCenteredFluc (K := ℚ) 2 (fun p _ _ => if p = 0 then 1 else 3) 0 0 0
        = -1 ∧
    storedPhi_3D_fluc_only (K := ℚ) 2 1 1 [0, 1]
        (fun p _ _ => if p = 0 then 1 else 3) 0 0 0 0
      ≠ rawCenteredFluc (K := ℚ) 2 (fun p _ _ => if p = 0 then 1 else 3) 0 0 0 ∧
    ne0_after_3D_fluc_only (K := ℚ) 2 1 (fun p _ _ => if p = 0 then 1 else 3)
        (fun _ => 10) 0 = 10 := by
  norm_num [storedPhi_3D_fluc_only, phi_all_3D_fluc_only, phi_avg_tor,
    rawCenteredFluc, ne0_after_3D_fluc_only, center_plane,
    Finset.sum_range_succ]

/-! ## Ion-array allocation in interpolate_all_on_grid_3D (C9) -/

/-- A Python runtime error surfaced by the embedding. -/
inductive PyError where
  | attributeError : PyError

/-- Embedding of the fluctuation-output allocation of
interpolate_all_on_grid_3D (loader.py lines 1221-1226): the adiabatic
electron array gets the 5-D shape (n_cross_section, nt, NZ, NY, NX), the
non-adiabatic electron array copies that shape, but the ion branch
evaluates `self.dni_ad_on_grid.shape` - an attribute assigned only by
interpolate_all_on_grid_2D (line 1101), modelled as an optional shape;
reading it unassigned raises AttributeError. -/
def allocFlucArrays3D (haveElectron loadIons : Bool) (ncross nt NZ NY NX : ℕ)
    (dniAdOnGridShape : Option (List ℕ)) :
    Except PyError (List ℕ × Option (List ℕ) × Option (List ℕ)) :=
  let dneShape := [ncross, nt, NZ, NY, NX]
  let naneShape := if haveElectron then some dneShape else none
  if loadIons then
    match dniAdOnGridShape with
    | none => Except.error PyError.attributeError
    | some shp => Except.ok (dneShape, naneShape, some shp)
  else Except.ok (dneShape, naneShape, none)

/-- C9 failing behavior: on a fresh 3-D loader (whose loading path never
assigns dni_ad_on_grid) with load_ions = True, allocating the gridded ion
array raises AttributeError instead of producing an array of the grid's
shape; and even with a stale 4-D shape left by an earlier 2-D
interpolation, the allocated ion array's shape differs from the 5-D grid
shape used for the electron arrays. -/
theorem interpolate_3D_ion_alloc_bug :
    allocFlucArrays3D true true 1 2 4 5 6 none
      = Except.error PyError.attributeError ∧
    allocFlucArrays3D true true 1 2 4 5 6 (some [1, 2, 7, 8])
      = Except.ok ([1, 2, 4, 5, 6], some [1, 2, 4, 5, 6], some [1, 2, 7, 8]) ∧
    [1, 2, 7, 8] ≠ [1, 2, 4, 5, 6] := by
  refine ⟨rfl, rfl, by decide⟩

/-! ## change_grid dispatch (loader.py 525-598, C10) -/

/-- The grid argument of change_grid, as dispatched by the isinstance
checks of loader.py lines 531-534 and 572-575: a Cartesian2D instance, a
Cartesian3D instance, or any other object (the geometry module also
offers e.g. Cartesian1D and Path2D grids).  The dispatch logic never
inspects the grid payload, which is therefore omitted. -/
inductive PyGrid where
  | cart2D : PyGrid
  | cart3D : PyGrid
  | otherGrid : PyGrid

/-- The exception class XGC_Loader_Error (loader.py lines 405-409). -/
structure XGC_Loader_Error where
  value : String

/-- The observable loader state touched by change_grid: the stored grid,
the dimension flag, and the previously computed on-grid arrays (kept
abstract in one field, overwritten by the pipeline functions below). -/
structure LoaderState (A : Type) where
  dimension : ℕ
  grid : PyGrid
  onGrid : A

/-- Embedding of change_grid (loader.py lines 525-598), with the loading
and interpolation phases passed as pipeline functions: each branch first
dispatches on the isinstance checks and only then assigns attributes, so
the two invalid-grid branches raise XGC_Loader_Error before any state is
mutated. -/
def change_grid (A : Type) (interp2D interp3D reload2D reload3D :
    LoaderState A → LoaderState A) (st : LoaderState A) (g : PyGrid) :
    Except XGC_Loader_Error (LoaderState A) :=
  if st.dimension = 2 then
    match g with
    | PyGrid.cart2D => Except.ok (interp2D { st with grid := g })
    | PyGrid.cart3D => Except.ok (reload3D { st with dimension := 3, grid := g })
    | PyGrid.otherGrid => Except.error
        ⟨"NOT VALID GRID, please use either Cartesian3D or Cartesian2D grids.Grid NOT changed."⟩
  else
    match g with
    | PyGrid.cart3D => Except.ok (interp3D { st with grid := g })
    | PyGrid.cart2D => Except.ok (reload2D { st with dimension := 2, grid := g })
    | PyGrid.otherGrid => Except.error
        ⟨"NOT VALID GRID, please use either Cartesian3D or Cartesian2D grids.Grid NOT changed."⟩

/-- C10: calling change_grid with an argument that is neither a
Cartesian2D nor a Cartesian3D instance raises XGC_Loader_Error, and since
the raise precedes every attribute assignment in that branch, no new
loader state is produced: the stored grid, the dimension flag and the
on-grid arrays are exactly as before the call. -/
theorem change_grid_invalid_atomic (A : Type) (interp2D interp3D reload2D
    reload3D : LoaderState A → LoaderState A) (st : LoaderState A) (g : PyGrid)
    (hg : g = PyGrid.otherGrid) :
    change_grid A interp2D interp3D reload2D reload3D st g
      = Except.error
          ⟨"NOT VALID GRID, please use either Cartesian3D or Cartesian2D grids.Grid NOT changed."⟩ ∧
    ∀ st2, change_grid A interp2D interp3D reload2D reload3D st g
      ≠ Except.ok st2 := by
  subst hg
  by_cases h : st.dimension = 2 <;> simp [change_grid, h]

/-- Witness for C10: a concrete 2-D loader state and an invalid grid
argument; the call returns the XGC_Loader_Error value. -/
theorem change_grid_invalid_atomic_witness :
    change_grid ℕ id id id id ⟨2, PyGrid.cart2D, 0⟩ PyGrid.otherGrid
      = Except.error
          ⟨"NOT VALID GRID, please use either Cartesian3D or Cartesian2D grids.Grid NOT changed."⟩ := by
  exact (change_grid_invalid_atomic ℕ id id id id ⟨2, PyGrid.cart2D, 0⟩
    PyGrid.otherGrid rfl).1

end XGCLoader
